import Mathlib

/-!
Verification development for the trouBLE BLE host stack: the L2CAP
connection-oriented channel (CoC) engine with credit-based flow control,
its fixed-capacity resource pool, and the example applications.

The CoC engine itself is not part of the visible sources (only its example
callers are), so the engine-level definitions below are modelled from the
specification; the example-application definitions are embedded directly
from the example sources.
-/

namespace Trouble

/-! ## Remote-credit accounting (send side)

Modelled from the spec: the per-channel remote-credit counter of the CoC
engine (`ChannelSlot` remote credits, spec section 3 and section 4.4 send
path), which is not present under the visible sources. Each transmitted
PDU requires and consumes exactly one credit; a send with zero credits is
refused (suspends, transmitting nothing); a peer credit-update grant adds
to the counter, saturating (not wrapping) at the counter's maximum. -/

/-- The credit counter is a 16-bit quantity; grants saturate here. -/
def maxCredits : Nat := 65535

/-- Modelled from the spec: applying a peer credit-update grant of `g`
credits to a counter holding `c`; overflow saturates rather than wraps. -/
def grantCredits (c g : Nat) : Nat := min maxCredits (c + g)

/-- A history event visible to the remote-credit counter. -/
inductive CreditEvent where
  | sendPdu : CreditEvent
  | grant : Nat → CreditEvent
deriving DecidableEq, Repr

/-- Modelled from the spec: one step of the remote-credit counter.
Sending with zero credits is refused (`none`, the send suspends and no
PDU is transmitted); otherwise a transmitted PDU consumes exactly one
credit. A grant saturates at `maxCredits`. -/
def creditStep (c : Nat) : CreditEvent → Option Nat
  | .sendPdu => if c = 0 then none else some (c - 1)
  | .grant g => some (grantCredits c g)

/-- Running a history of events from an initial credit value. `none`
means some send in the history was attempted with zero credits, i.e. the
history is not realizable without suspension. -/
def runCredits (c : Nat) : List CreditEvent → Option Nat
  | [] => some c
  | e :: es =>
    match creditStep c e with
    | none => none
    | some c' => runCredits c' es

/-- Number of PDUs sent in a history. -/
def numSends : List CreditEvent → Nat
  | [] => 0
  | .sendPdu :: es => numSends es + 1
  | .grant _ :: es => numSends es

/-- Total credits granted by the peer in a history. -/
def totalGrants : List CreditEvent → Nat
  | [] => 0
  | .sendPdu :: es => totalGrants es
  | .grant g :: es => g + totalGrants es

theorem runCredits_eq (init : Nat) (tr : List CreditEvent) (c : Nat)
    (hrun : runCredits init tr = some c)
    (hsat : init + totalGrants tr ≤ maxCredits) :
    c = init + totalGrants tr - numSends tr ∧
      numSends tr ≤ init + totalGrants tr := by
  induction tr generalizing init with
  | nil =>
    simp [runCredits] at hrun
    simp [numSends, totalGrants]
    omega
  | cons e es ih =>
    cases e with
    | sendPdu =>
      by_cases h0 : init = 0
      · simp [runCredits, creditStep, h0] at hrun
      · simp [runCredits, creditStep, h0] at hrun
        simp only [numSends, totalGrants] at *
        have := ih (init - 1) hrun (by omega)
        omega
    | grant g =>
      simp [runCredits, creditStep] at hrun
      simp only [numSends, totalGrants] at *
      have hg : grantCredits init g = init + g := by
        unfold grantCredits
        omega
      rw [hg] at hrun
      have := ih (init + g) hrun (by omega)
      omega

/-- Claim C1: for every channel, after a history in which N PDUs have been
sent and credit-update grants g_1..g_M have been received (realizable, i.e.
no send was attempted at zero credits, and without saturation at the
counter's 16-bit maximum), the remote-credit counter equals
initial_credits - N + sum(g_i); it never goes negative (N never exceeds
initial_credits + sum(g_i)); each transmitted PDU decrements the counter by
exactly one; a send at zero credits is refused (transmits nothing); and a
grant saturates at the counter's maximum instead of wrapping. -/
theorem c1_remote_credit_counter (init : Nat) (tr : List CreditEvent) (c : Nat)
    (hrun : runCredits init tr = some c)
    (hsat : init + totalGrants tr ≤ maxCredits) :
    c = init + totalGrants tr - numSends tr ∧
      numSends tr ≤ init + totalGrants tr ∧
      creditStep 0 .sendPdu = none ∧
      (∀ c', 0 < c' → creditStep c' .sendPdu = some (c' - 1)) ∧
      (∀ c' g, creditStep c' (.grant g) = some (min maxCredits (c' + g))) := by
  refine ⟨(runCredits_eq init tr c hrun hsat).1,
          (runCredits_eq init tr c hrun hsat).2, rfl, ?_, ?_⟩
  · intro c' hc'
    simp [creditStep]
    omega
  · intro c' g
    simp [creditStep, grantCredits]

/-- Witness for C1: the concrete history send, grant 3, send, send from 2
initial credits ends with 2 credits, matching 2 + 3 - 3. -/
theorem c1_remote_credit_counter_witness :
    runCredits 2 [.sendPdu, .grant 3, .sendPdu, .sendPdu] = some 2 ∧
      2 = 2 + totalGrants [.sendPdu, .grant 3, .sendPdu, .sendPdu] -
        numSends [.sendPdu, .grant 3, .sendPdu, .sendPdu] :=
  ⟨by decide,
   (c1_remote_credit_counter 2 [.sendPdu, .grant 3, .sendPdu, .sendPdu] 2
     (by decide) (by decide)).1⟩

/-! ## Receive-side credit replenishment policy

Modelled from the spec: the CoC engine's local credit-grant accounting
(spec section 4.4 receive path), not present under the visible sources.
Each received PDU consumes one local credit-grant unit; the configured
flow policy decides when a credit-update PDU is emitted back to the peer.
The policy used by the central example is `CreditFlowPolicy::Every(50)`:
grant a batch of N credits after every N consumed buffers. -/

/-- The per-channel credit flow policy, as in the central example's
`L2capChannelConfig`. `Every n` grants a batch of `n` credits after every
`n` consumed receive buffers. -/
inductive CreditFlowPolicy where
  | Every : Nat → CreditFlowPolicy
deriving DecidableEq, Repr

/-- Modelled from the spec: consuming one received buffer. The state is
the number of buffers consumed since the last policy-triggered grant; the
step returns the new state and the credit-update grant emitted, if any. -/
def consumeRxBuffer (pol : CreditFlowPolicy) (consumed : Nat) :
    Nat × Option Nat :=
  match pol with
  | .Every n => if n ≤ consumed + 1 then (0, some n) else (consumed + 1, none)

/-- Receiving `k` PDUs in sequence from a fresh channel, collecting every
credit-update grant the policy emits, in order. -/
def runRx (pol : CreditFlowPolicy) : Nat → Nat × List Nat
  | 0 => (0, [])
  | k + 1 =>
    let s := runRx pol k
    let t := consumeRxBuffer pol s.1
    (t.1, s.2 ++ t.2.toList)

theorem runRx_every50_below (k : Nat) (hk : k < 50) :
    runRx (.Every 50) k = (k, []) := by
  induction k with
  | zero => rfl
  | succ n ih =>
    have hn : n < 50 := by omega
    have hlt : ¬ (50 ≤ n + 1) := by omega
    simp [runRx, ih hn, consumeRxBuffer, hlt]

/-- Claim C3: with flow policy "replenish every 50", each received PDU
consumes exactly one local credit-grant unit (after k < 50 received PDUs
the consumed-since-grant counter is exactly k), no policy-triggered
credit-update is emitted before the 50th consumed buffer, and immediately
after the 50th consumed buffer exactly one credit-update granting 50
credits has been emitted. -/
theorem c3_flow_policy_every50 :
    (∀ k, k < 50 → runRx (.Every 50) k = (k, [])) ∧
      runRx (.Every 50) 50 = (0, [50]) := by
  refine ⟨runRx_every50_below, ?_⟩
  have h49 : runRx (.Every 50) 49 = (49, []) := runRx_every50_below 49 (by omega)
  have : runRx (.Every 50) 50 = runRx (.Every 50) (49 + 1) := rfl
  rw [this, runRx, h49]
  simp [consumeRxBuffer]

/-- Witness for C3: after 49 received PDUs the consumed counter is 49 and
no grant has been emitted. -/
theorem c3_flow_policy_every50_witness :
    runRx (.Every 50) 49 = (49, []) :=
  c3_flow_policy_every50.1 49 (by omega)

/-! ## SDU fragmentation and reassembly

Modelled from the spec: the CoC engine's send-path fragmentation and
receive-path reassembly (spec section 4.4), not present under the visible
sources. A caller submits one SDU up to the negotiated MTU; the engine
fragments it into PDUs whose payload is no larger than MPS, the first PDU
carrying a 2-byte little-endian SDU-length prefix, subsequent PDUs
carrying only fragment payload; the receiver reassembles by the SDU-length
prefix and rejects a length mismatch as a protocol violation. -/

/-- Splitting a byte list into consecutive chunks of at most `mps` bytes. -/
def chunkList (mps : Nat) (xs : List Nat) : List (List Nat) :=
  if h : mps = 0 ∨ xs = [] then []
  else xs.take mps :: chunkList mps (xs.drop mps)
termination_by xs.length
decreasing_by
  push_neg at h
  have hx : 0 < xs.length := List.length_pos.mpr h.2
  simp only [List.length_drop]
  omega

theorem chunkList_flatten (mps : Nat) (hm : 0 < mps) (xs : List Nat) :
    (chunkList mps xs).flatten = xs := by
  generalize hlen : xs.length = n
  induction n using Nat.strong_induction_on generalizing xs with
  | _ n ih =>
    rw [chunkList]
    by_cases hx : xs = []
    · simp [hx]
    · rw [dif_neg (by simp [hx]; omega)]
      have hxlen : 0 < xs.length := List.length_pos.mpr hx
      simp only [List.flatten_cons]
      rw [ih ((xs.drop mps).length) (by simp [List.length_drop]; omega)
            (xs.drop mps) rfl]
      exact List.take_append_drop mps xs

theorem chunkList_length (mps : Nat) (hm : 0 < mps) (xs : List Nat) :
    (chunkList mps xs).length = (xs.length + mps - 1) / mps := by
  generalize hlen : xs.length = n
  induction n using Nat.strong_induction_on generalizing xs with
  | _ n ih =>
    rw [chunkList]
    by_cases hx : xs = []
    · subst hx
      rw [dif_pos (Or.inr rfl)]
      have hn : n = 0 := by simpa using hlen.symm
      subst hn
      have h0 : 0 + mps - 1 < mps := by omega
      rw [Nat.div_eq_of_lt h0]
      simp
    · rw [dif_neg (by simp [hx]; omega)]
      have hxlen : 0 < xs.length := List.length_pos.mpr hx
      simp only [List.length_cons]
      rw [ih ((xs.drop mps).length) (by simp [List.length_drop]; omega)
            (xs.drop mps) rfl]
      simp only [List.length_drop]
      subst hlen
      rcases le_or_lt xs.length mps with hle | hgt
      · have h1 : xs.length - mps = 0 := by omega
        rw [h1, Nat.div_eq_of_lt (by omega)]
        have h2 : xs.length + mps - 1 = (xs.length - 1) + mps := by omega
        rw [h2, Nat.add_div_right _ hm, Nat.div_eq_of_lt (by omega)]
      · have h2 : xs.length + mps - 1 = (xs.length - mps + mps - 1) + mps := by
          omega
        rw [h2, Nat.add_div_right _ hm]

theorem chunkList_mem_length (mps : Nat) (xs : List Nat) (c : List Nat)
    (hc : c ∈ chunkList mps xs) : c.length ≤ mps := by
  generalize hlen : xs.length = n
  induction n using Nat.strong_induction_on generalizing xs c with
  | _ n ih =>
    rw [chunkList] at hc
    by_cases hx : mps = 0 ∨ xs = []
    · rw [dif_pos hx] at hc
      simp at hc
    · rw [dif_neg hx] at hc
      push_neg at hx
      have hxlen : 0 < xs.length := List.length_pos.mpr hx.2
      rcases List.mem_cons.mp hc with h | h
      · subst h
        simp [List.length_take]
      · exact ih ((xs.drop mps).length)
          (by simp [List.length_drop]; omega) (xs.drop mps) c h rfl

/-- The 2-byte little-endian SDU-length prefix carried by the first PDU. -/
def encodeSduLen (n : Nat) : List Nat := [n % 256, n / 256 % 256]

/-- Modelled from the spec: the CoC engine send path fragments one SDU
into PDUs whose fragment payload is no larger than MPS; the first PDU
carries the 2-byte SDU-length prefix followed by the first fragment,
subsequent PDUs carry only fragment payload. -/
def fragmentSdu (mps : Nat) (sdu : List Nat) : List (List Nat) :=
  match chunkList mps sdu with
  | [] => [encodeSduLen sdu.length]
  | c :: cs => (encodeSduLen sdu.length ++ c) :: cs

/-- Modelled from the spec: the CoC engine receive path reassembles the
PDUs of one SDU by the first PDU's SDU-length prefix; a mismatch between
the declared SDU length and the reassembled bytes is a protocol violation
(`none`). -/
def reassembleSdu (pdus : List (List Nat)) : Option (List Nat) :=
  match pdus with
  | [] => none
  | first :: rest =>
    match first with
    | lo :: hi :: payload =>
      let declared := lo + 256 * hi
      let sdu := payload ++ rest.flatten
      if sdu.length = declared then some sdu else none
    | _ => none

theorem fragment_reassemble (mps : Nat) (hm : 0 < mps) (sdu : List Nat)
    (hlen : sdu.length ≤ 65535) :
    reassembleSdu (fragmentSdu mps sdu) = some sdu := by
  have hdecode : sdu.length % 256 + 256 * (sdu.length / 256 % 256) =
      sdu.length := by omega
  unfold fragmentSdu
  cases hch : chunkList mps sdu with
  | nil =>
    have hnil : sdu = [] := by
      have := chunkList_flatten mps hm sdu
      rw [hch] at this
      simpa using this.symm
    subst hnil
    simp [reassembleSdu, encodeSduLen]
  | cons c cs =>
    have hflat : c ++ cs.flatten = sdu := by
      have := chunkList_flatten mps hm sdu
      rw [hch] at this
      simpa using this
    simp only [reassembleSdu, encodeSduLen, List.cons_append, List.nil_append]
    rw [hflat, hdecode]
    simp

theorem fragment_count (mps : Nat) (hm : 0 < mps) (sdu : List Nat)
    (hpos : 0 < sdu.length) :
    (fragmentSdu mps sdu).length = (sdu.length + mps - 1) / mps := by
  unfold fragmentSdu
  cases hch : chunkList mps sdu with
  | nil =>
    exfalso
    have := chunkList_flatten mps hm sdu
    rw [hch] at this
    simp at this
    subst this
    simp at hpos
  | cons c cs =>
    have := chunkList_length mps hm sdu
    rw [hch] at this
    simpa using this

/-- Claim C2: for every SDU and positive MPS (with the SDU length
expressible in the 2-byte prefix and nonempty), the engine fragments it
into exactly ceil(len / MPS) PDUs; the first PDU is the 2-byte SDU-length
prefix followed by the first at-most-MPS-byte fragment; every subsequent
PDU is a fragment payload of at most MPS bytes; and reassembly of the
fragments yields the byte-identical SDU (round-trip identity). -/
theorem c2_fragmentation_roundtrip (mps : Nat) (sdu : List Nat)
    (hm : 0 < mps) (hpos : 0 < sdu.length) (hlen : sdu.length ≤ 65535) :
    (fragmentSdu mps sdu).length = (sdu.length + mps - 1) / mps ∧
      (fragmentSdu mps sdu).head? =
        some (encodeSduLen sdu.length ++ sdu.take mps) ∧
      (∀ p ∈ (fragmentSdu mps sdu).tail, p.length ≤ mps) ∧
      reassembleSdu (fragmentSdu mps sdu) = some sdu := by
  refine ⟨fragment_count mps hm sdu hpos, ?_, ?_, fragment_reassemble mps hm sdu hlen⟩
  · unfold fragmentSdu
    cases hch : chunkList mps sdu with
    | nil =>
      exfalso
      have := chunkList_flatten mps hm sdu
      rw [hch] at this
      simp at this
      subst this
      simp at hpos
    | cons c cs =>
      have hc : c = sdu.take mps := by
        rw [chunkList] at hch
        rcases Decidable.em (mps = 0 ∨ sdu = []) with hcond | hcond
        · rw [dif_pos hcond] at hch
          exact absurd hch (by simp)
        · rw [dif_neg hcond] at hch
          exact (List.cons.injEq _ _ _ _ ▸ hch).1.symm
      simp [hc]
  · intro p hp
    unfold fragmentSdu at hp
    cases hch : chunkList mps sdu with
    | nil =>
      rw [hch] at hp
      simp at hp
    | cons c cs =>
      rw [hch] at hp
      simp only [List.tail_cons] at hp
      exact chunkList_mem_length mps sdu p (hch ▸ List.mem_cons_of_mem c hp)

/-- Witness for C2: the 5-byte SDU [10, 20, 30, 40, 50] with MPS 2 becomes
3 PDUs and reassembles byte-identically. -/
theorem c2_fragmentation_roundtrip_witness :
    (fragmentSdu 2 [10, 20, 30, 40, 50]).length = 3 ∧
      reassembleSdu (fragmentSdu 2 [10, 20, 30, 40, 50]) =
        some [10, 20, 30, 40, 50] :=
  ⟨by have := (c2_fragmentation_roundtrip 2 [10, 20, 30, 40, 50]
        (by omega) (by simp) (by simp)).1
      simpa using this,
   (c2_fragmentation_roundtrip 2 [10, 20, 30, 40, 50]
        (by omega) (by simp) (by simp)).2.2.2⟩

/-! ## Fixed-capacity resource pool

Modelled from the spec: the Resource Pool (spec section 4.1), not present
under the visible sources. Static fixed-capacity storage of connection
slots and channel slots; `acquire` returns `none` (not an error) when
capacity is exhausted; `release` returns a slot to the free set and resets
all its fields so no residual state leaks to the next occupant. -/

/-- One L2CAP CoC channel slot: CIDs, credit counters and the backing
reassembly buffer (spec section 3, ChannelSlot). -/
structure ChannelSlot where
  localCid : Nat
  remoteCid : Nat
  localCredits : Nat
  remoteCredits : Nat
  reassemblyBuf : List Nat
deriving DecidableEq, Repr

/-- The state all ChannelSlot fields are reset to on release. -/
def freshChannelSlot : ChannelSlot :=
  { localCid := 0, remoteCid := 0, localCredits := 0, remoteCredits := 0,
    reassemblyBuf := [] }

/-- One physical-link connection slot (spec section 3, ConnectionSlot). -/
structure ConnectionSlot where
  handle : Nat
  peerAddr : List Nat
deriving DecidableEq, Repr

/-- The state all ConnectionSlot fields are reset to on release. -/
def freshConnectionSlot : ConnectionSlot := { handle := 0, peerAddr := [] }

/-- A fixed-capacity pool: one entry per slot, flagged live or free. The
list length is the configured maximum and never changes. -/
def PoolState (α : Type) : Type := List (Bool × α)

/-- Number of live (acquired) slots. -/
def liveCount {α : Type} (p : PoolState α) : Nat :=
  List.countP (fun e => e.1) p

/-- Acquire the first free slot, returning its index and the updated
pool, or `none` (not an error) when capacity is exhausted. -/
def acquireSlot {α : Type} : PoolState α → Option (Nat × PoolState α)
  | [] => none
  | (false, s) :: rest => some (0, (true, s) :: rest)
  | (true, s) :: rest =>
    match acquireSlot rest with
    | none => none
    | some (i, rest') => some (i + 1, (true, s) :: rest')

/-- Release slot `i`: mark it free and reset every field to the fresh
value, so no residual state leaks to the next occupant. -/
def releaseSlot {α : Type} (fresh : α) (p : PoolState α) (i : Nat) :
    PoolState α :=
  p.set i (false, fresh)

/-- A pool of `cap` initially-free slots. -/
def initPool {α : Type} (fresh : α) (cap : Nat) : PoolState α :=
  List.replicate cap (false, fresh)

/-- A history of pool operations. -/
inductive PoolOp where
  | acquire : PoolOp
  | release : Nat → PoolOp
deriving DecidableEq, Repr

/-- Running a history of acquire/release operations. -/
def runPool {α : Type} (fresh : α) (p : PoolState α) : List PoolOp → PoolState α
  | [] => p
  | .acquire :: ops =>
    match acquireSlot p with
    | none => runPool fresh p ops
    | some t => runPool fresh t.2 ops
  | .release i :: ops => runPool fresh (releaseSlot fresh p i) ops

theorem acquireSlot_length {α : Type} (p : PoolState α) (i : Nat)
    (q : PoolState α) (h : acquireSlot p = some (i, q)) :
    q.length = p.length := by
  induction p generalizing i q with
  | nil => simp [acquireSlot] at h
  | cons e rest ih =>
    match e with
    | (false, s) =>
      simp [acquireSlot] at h
      rw [← h.2]
      simp
    | (true, s) =>
      simp only [acquireSlot] at h
      cases hr : acquireSlot rest with
      | none => rw [hr] at h; simp at h
      | some t =>
        rw [hr] at h
        simp at h
        rcases h with ⟨h1, h2⟩
        rw [← h2]
        simpa using ih t.1 t.2 (by rw [hr])

theorem runPool_length {α : Type} (fresh : α) (p : PoolState α)
    (ops : List PoolOp) : (runPool fresh p ops).length = p.length := by
  induction ops generalizing p with
  | nil => rfl
  | cons op ops ih =>
    cases op with
    | acquire =>
      cases hacq : acquireSlot p with
      | none => simp [runPool, hacq, ih]
      | some t =>
        simp only [runPool, hacq]
        rw [ih t.2, acquireSlot_length p t.1 t.2 (by rw [hacq])]
    | release i =>
      simp only [runPool]
      rw [ih, releaseSlot, List.length_set]

theorem liveCount_le_length {α : Type} (p : PoolState α) :
    liveCount p ≤ p.length :=
  List.countP_le_length _

theorem acquireSlot_none_iff {α : Type} (p : PoolState α) :
    acquireSlot p = none ↔ liveCount p = p.length := by
  induction p with
  | nil => simp [acquireSlot, liveCount]
  | cons e rest ih =>
    obtain ⟨b, s⟩ := e
    cases b with
    | false =>
      have hcnt : liveCount ((false, s) :: rest) = liveCount rest := by
        simp [liveCount, List.countP_cons]
      have hle := liveCount_le_length (α := α) rest
      constructor
      · intro h; simp [acquireSlot] at h
      · intro h
        rw [hcnt] at h
        simp only [List.length_cons] at h
        exact absurd h (by omega)
    | true =>
      have hcnt : liveCount ((true, s) :: rest) = liveCount rest + 1 := by
        simp [liveCount, List.countP_cons]
      have hstep : acquireSlot ((true, s) :: rest) = none ↔
          acquireSlot rest = none := by
        cases hr : acquireSlot rest with
        | none => simp [acquireSlot, hr]
        | some t => simp [acquireSlot, hr]
      rw [hstep, ih, hcnt]
      simp only [List.length_cons]
      omega

theorem releaseSlot_get {α : Type} (fresh : α) (p : PoolState α) (i : Nat)
    (hi : i < p.length) : (releaseSlot fresh p i).get? i = some (false, fresh) := by
  rw [releaseSlot, List.get?_eq_getElem?, List.getElem?_set_self]
  exact hi

/-- `acquire_channel` of the Resource Pool contract: `None` (not an
error) when channel capacity is exhausted. -/
def acquire_channel (p : PoolState ChannelSlot) :
    Option (Nat × PoolState ChannelSlot) := acquireSlot p

/-- `acquire_connection` of the Resource Pool contract: `None` (not an
error) when connection capacity is exhausted. -/
def acquire_connection (p : PoolState ConnectionSlot) :
    Option (Nat × PoolState ConnectionSlot) := acquireSlot p

/-- Claim C4: for every sequence of acquire/release operations on the
pool, the number of live slots never exceeds the configured maximum (for
channel pools and connection pools alike); `acquire_channel` and
`acquire_connection` return `none` exactly when capacity is exhausted;
and after releasing a slot, its fields (CIDs, credit counters, reassembly
buffer) are indistinguishable from a freshly-initialized slot. -/
theorem c4_resource_pool (ops : List PoolOp) (cap : Nat) :
    liveCount (runPool freshChannelSlot (initPool freshChannelSlot cap) ops) ≤
        cap ∧
      liveCount (runPool freshConnectionSlot
        (initPool freshConnectionSlot cap) ops) ≤ cap ∧
      (∀ p : PoolState ChannelSlot,
        acquire_channel p = none ↔ liveCount p = p.length) ∧
      (∀ p : PoolState ConnectionSlot,
        acquire_connection p = none ↔ liveCount p = p.length) ∧
      (∀ (p : PoolState ChannelSlot) (i : Nat), i < p.length →
        (releaseSlot freshChannelSlot p i).get? i =
          some (false, freshChannelSlot)) ∧
      (∀ (p : PoolState ConnectionSlot) (i : Nat), i < p.length →
        (releaseSlot freshConnectionSlot p i).get? i =
          some (false, freshConnectionSlot)) := by
  refine ⟨?_, ?_, fun p => acquireSlot_none_iff p, fun p => acquireSlot_none_iff p,
    fun p i hi => releaseSlot_get _ p i hi, fun p i hi => releaseSlot_get _ p i hi⟩
  · have h := liveCount_le_length
      (runPool freshChannelSlot (initPool freshChannelSlot cap) ops)
    rw [runPool_length] at h
    simpa [initPool] using h
  · have h := liveCount_le_length
      (runPool freshConnectionSlot (initPool freshConnectionSlot cap) ops)
    rw [runPool_length] at h
    simpa [initPool] using h

/-- Witness for C4: acquiring twice then releasing slot 0 on a
2-slot channel pool leaves the live count at 1, within the maximum; the
released slot reads back fresh. -/
theorem c4_resource_pool_witness :
    liveCount (runPool freshChannelSlot (initPool freshChannelSlot 2)
        [.acquire, .acquire, .release 0]) ≤ 2 ∧
      (releaseSlot freshChannelSlot
        [(true, freshChannelSlot), (true, freshChannelSlot)] 0).get? 0 =
          some (false, freshChannelSlot) :=
  ⟨(c4_resource_pool [.acquire, .acquire, .release 0] 2).1,
   (c4_resource_pool [] 2).2.2.2.2.1
     [(true, freshChannelSlot), (true, freshChannelSlot)] 0 (by simp)⟩

/-! ## Channel establishment on the acceptor side

Modelled from the spec: the CoC engine's handling of an incoming L2CAP
connection request against a caller-supplied allow-list of PSMs (spec
section 4.4 channel establishment, acceptor), not present under the
visible sources. A request whose PSM is not allow-listed is rejected with
an explicit "PSM not supported" response and consumes no slot; on a match
a ChannelSlot is acquired from the pool, and failure to acquire rejects
with "no resources". -/

/-- The response sent for an incoming connection request. -/
inductive ConnReqResult where
  | accepted : Nat → ConnReqResult
  | psmNotSupported : ConnReqResult
  | noResources : ConnReqResult
deriving DecidableEq, Repr

/-- Modelled from the spec: the acceptor handles one incoming connection
request, checking the PSM against the allow-list before touching the
channel pool. -/
def handleConnRequest (allow : List Nat) (psm : Nat)
    (p : PoolState ChannelSlot) : ConnReqResult × PoolState ChannelSlot :=
  if psm ∈ allow then
    match acquireSlot p with
    | some (i, p') => (.accepted i, p')
    | none => (.noResources, p)
  else (.psmNotSupported, p)

/-- Claim C5: an incoming connection request whose PSM is not in the
acceptor's allow-list is answered with the explicit "PSM not supported"
rejection, the pool is untouched, and the number of consumed ChannelSlots
is unchanged. -/
theorem c5_psm_rejection (allow : List Nat) (psm : Nat)
    (p : PoolState ChannelSlot) (hpsm : psm ∉ allow) :
    (handleConnRequest allow psm p).1 = .psmNotSupported ∧
      (handleConnRequest allow psm p).2 = p ∧
      liveCount (handleConnRequest allow psm p).2 = liveCount p := by
  rw [handleConnRequest, if_neg hpsm]
  exact ⟨rfl, rfl, rfl⟩

/-- Witness for C5: an acceptor allow-listing only PSM 0x2349 rejects a
request for PSM 0x0041 with "PSM not supported" and consumes zero
ChannelSlots of a fresh 2-slot pool. -/
theorem c5_psm_rejection_witness :
    (handleConnRequest [0x2349] 0x0041 (initPool freshChannelSlot 2)).1 =
        .psmNotSupported ∧
      (handleConnRequest [0x2349] 0x0041 (initPool freshChannelSlot 2)).2 =
        initPool freshChannelSlot 2 :=
  ⟨(c5_psm_rejection [0x2349] 0x0041 (initPool freshChannelSlot 2)
      (by decide)).1,
   (c5_psm_rejection [0x2349] 0x0041 (initPool freshChannelSlot 2)
      (by decide)).2.1⟩

/-! ## Channel teardown and blocked-task wakeup

Modelled from the spec: channel teardown (spec section 4.4 teardown and
section 7 connection loss), not present under the visible sources. An
explicit disconnect request, a received disconnect request, or
invalidation of the owning connection (its slot forced back to Idle) all
drive the channel to Closed; the next event-loop iteration wakes every
task blocked on a pending send or receive of that channel with a
"channel closed" result. -/

/-- The per-channel state machine (spec section 4.4): Open is the only
state in which send/receive are permitted. -/
inductive ChannelStatus where
  | requesting : ChannelStatus
  | listening : ChannelStatus
  | opened : ChannelStatus
  | closing : ChannelStatus
  | closed : ChannelStatus
deriving DecidableEq, Repr

/-- Why a channel was driven to Closed. -/
inductive CloseReason where
  | explicitDisconnect : CloseReason
  | receivedDisconnect : CloseReason
  | connectionInvalidated : CloseReason
deriving DecidableEq, Repr

/-- A channel together with its suspended user tasks: whether a send is
suspended (e.g. awaiting credits) and whether a receive is suspended
awaiting a complete SDU. -/
structure ChannelTasks where
  status : ChannelStatus
  pendingSend : Bool
  pendingRecv : Bool
deriving DecidableEq, Repr

/-- The result a suspended task observes. -/
inductive TaskResult where
  | stillPending : TaskResult
  | channelClosed : TaskResult
deriving DecidableEq, Repr

/-- Modelled from the spec: all three teardown causes drive the slot to
Closed. -/
def closeChannel (_r : CloseReason) (s : ChannelTasks) : ChannelTasks :=
  { s with status := .closed }

/-- Modelled from the spec: one event-loop iteration. On a closed channel
every pending send/receive is woken with a "channel closed" result; on a
channel that is not closed, suspended tasks stay suspended (they are woken
by credits or data, not modelled here). Returns the new channel state and
the results now visible to the send task and the receive task. -/
def eventLoopIter (s : ChannelTasks) :
    ChannelTasks × Option TaskResult × Option TaskResult :=
  if s.status = .closed then
    ({ s with pendingSend := false, pendingRecv := false },
      (if s.pendingSend then some .channelClosed else none),
      (if s.pendingRecv then some .channelClosed else none))
  else (s, (if s.pendingSend then some .stillPending else none),
      (if s.pendingRecv then some .stillPending else none))

/-- Claim C6: for every channel driven to Closed — by explicit disconnect,
received disconnect, or invalidation of the owning connection — one
event-loop iteration resolves every task blocked on a pending send or
receive with a "channel closed" result rather than leaving it suspended;
in particular a send suspended awaiting credits when the owning connection
is invalidated mid-transfer resolves with that result within one
iteration. -/
theorem c6_teardown_wakes_blocked (s : ChannelTasks) (r : CloseReason) :
    (s.pendingSend = true →
      (eventLoopIter (closeChannel r s)).2.1 = some .channelClosed) ∧
      (s.pendingRecv = true →
        (eventLoopIter (closeChannel r s)).2.2 = some .channelClosed) ∧
      (eventLoopIter (closeChannel r s)).1.pendingSend = false ∧
      (eventLoopIter (closeChannel r s)).1.pendingRecv = false := by
  refine ⟨fun hs => ?_, fun hr => ?_, ?_, ?_⟩
  · simp [eventLoopIter, closeChannel, hs]
  · simp [eventLoopIter, closeChannel, hr]
  · simp [eventLoopIter, closeChannel]
  · simp [eventLoopIter, closeChannel]

/-- Witness for C6: a send suspended awaiting credits on an Open channel
whose owning connection is invalidated resolves with "channel closed"
after one event-loop iteration. -/
theorem c6_teardown_wakes_blocked_witness :
    (eventLoopIter (closeChannel .connectionInvalidated
      { status := .opened, pendingSend := true, pendingRecv := false })).2.1 =
      some .channelClosed :=
  (c6_teardown_wakes_blocked
    { status := .opened, pendingSend := true, pendingRecv := false }
    .connectionInvalidated).1 rfl

/-! ## Fault isolation between sibling channels

Modelled from the spec: per-channel fault containment (spec section 7 and
the two-channels scenario in section 8), not present under the visible
sources. Closing one channel explicitly, or a protocol violation fatal to
one channel (malformed PDU, SDU-length mismatch, credit underflow
attempt), closes only that channel; sibling channels of the same
connection and the connection itself are untouched. -/

/-- What drives one channel closed without touching its siblings. -/
inductive ChannelFault where
  | explicitClose : ChannelFault
  | malformedPdu : ChannelFault
  | sduLengthMismatch : ChannelFault
  | creditUnderflow : ChannelFault
deriving DecidableEq, Repr

/-- One CoC channel as seen by its owning connection. -/
structure CocChannel where
  status : ChannelStatus
  localCredits : Nat
  remoteCredits : Nat
  reassemblyBuf : List Nat
deriving DecidableEq, Repr

/-- A connection and the channels it owns. -/
structure ConnChannels where
  connState : ChannelStatus
  channels : List CocChannel
deriving DecidableEq, Repr

/-- Close the channel at index `i`, leaving every other channel alone. -/
def setChanClosed : List CocChannel → Nat → List CocChannel
  | [], _ => []
  | c :: cs, 0 => { c with status := .closed } :: cs
  | c :: cs, n + 1 => c :: setChanClosed cs n

/-- Modelled from the spec: a fault fatal to channel `i` closes that
channel only; the connection state is untouched. -/
def faultChannel (cs : ConnChannels) (i : Nat) (_f : ChannelFault) :
    ConnChannels :=
  { cs with channels := setChanClosed cs.channels i }

theorem setChanClosed_get_ne (l : List CocChannel) (i j : Nat) (hij : j ≠ i) :
    (setChanClosed l i).get? j = l.get? j := by
  induction l generalizing i j with
  | nil => simp [setChanClosed]
  | cons c cs ih =>
    cases i with
    | zero =>
      cases j with
      | zero => exact absurd rfl hij
      | succ m => simp [setChanClosed]
    | succ n =>
      cases j with
      | zero => simp [setChanClosed]
      | succ m =>
        simp only [setChanClosed, List.get?_cons_succ]
        exact ih n m (by omega)

/-- Claim C7: for a connection carrying channels, explicitly closing the
channel at index i, or any protocol violation fatal to it, leaves every
sibling channel j ≠ i byte-for-byte unchanged (so a sibling that was Open
remains Open with its credit counters and buffer intact) and leaves the
owning connection's state unchanged. -/
theorem c7_sibling_isolation (cs : ConnChannels) (i : Nat) (f : ChannelFault)
    (j : Nat) (hij : j ≠ i) :
    (faultChannel cs i f).channels.get? j = cs.channels.get? j ∧
      (faultChannel cs i f).connState = cs.connState ∧
      (∀ c : CocChannel, cs.channels.get? j = some c → c.status = .opened →
        (faultChannel cs i f).channels.get? j = some c) := by
  refine ⟨setChanClosed_get_ne cs.channels i j hij, rfl, fun c hc _ => ?_⟩
  calc (faultChannel cs i f).channels.get? j
      = (setChanClosed cs.channels i).get? j := rfl
    _ = cs.channels.get? j := setChanClosed_get_ne cs.channels i j hij
    _ = some c := hc

/-- Witness for C7: with two Open channels on one connection, a credit
underflow fatal to channel 0 leaves channel 1 unchanged and Open. -/
theorem c7_sibling_isolation_witness :
    (faultChannel
        { connState := .opened,
          channels := [
            { status := .opened, localCredits := 1, remoteCredits := 2,
              reassemblyBuf := [7] },
            { status := .opened, localCredits := 3, remoteCredits := 4,
              reassemblyBuf := [9] }] } 0 .creditUnderflow).channels.get? 1 =
      some { status := .opened, localCredits := 3, remoteCredits := 4,
             reassemblyBuf := [9] } :=
  (c7_sibling_isolation
    { connState := .opened,
      channels := [
        { status := .opened, localCredits := 1, remoteCredits := 2,
          reassemblyBuf := [7] },
        { status := .opened, localCredits := 3, remoteCredits := 4,
          reassemblyBuf := [9] }] } 0 .creditUnderflow 1 (by omega)).2.2
    { status := .opened, localCredits := 3, remoteCredits := 4,
      reassemblyBuf := [9] } (by rfl) rfl

/-! ## The central example: channel creation and echo loop

Embedded from `examples/apps/src/ble_l2cap_central.rs`. The `run`
function builds an `L2capChannelConfig { mtu: 251, flow_policy:
CreditFlowPolicy::Every(50), initial_credits: Some(50) }` but then calls
`L2capChannel::create(&stack, &conn, 0x2349, &Default::default())`;
afterwards it sends ten SDUs `[i + 0x41; 494]` for i in 0..10 and asserts
that the ten received SDUs equal `[i; 494]`. -/

/-- The channel configuration bundle, as in the central example. -/
structure L2capChannelConfig where
  mtu : Nat
  flow_policy : CreditFlowPolicy
  initial_credits : Option Nat
deriving DecidableEq, Repr

/-- The config the central example constructs locally
(ble_l2cap_central.rs lines 112-116). -/
def centralLocalConfig : L2capChannelConfig :=
  { mtu := 251, flow_policy := .Every 50, initial_credits := some 50 }

/-- The configuration argument position of `L2capChannel::create`: either
the defaulted bundle `&Default::default()` or an explicitly passed one. -/
inductive ConfigArgument where
  | defaulted : ConfigArgument
  | explicitly : L2capChannelConfig → ConfigArgument
deriving DecidableEq, Repr

/-- The `L2capChannel::create` call as issued by the central example
(ble_l2cap_central.rs line 117): PSM 0x2349 and `&Default::default()`. -/
def centralCreateCall : Nat × ConfigArgument := (0x2349, .defaulted)

/-- The configuration a created channel effectively uses, given the
stack's default configuration and the argument passed to create. -/
def effectiveConfig (dflt : L2capChannelConfig) :
    ConfigArgument → L2capChannelConfig
  | .defaulted => dflt
  | .explicitly c => c

/-- Claim C8: the central example's locally constructed
`L2capChannelConfig { mtu: 251, flow_policy: Every(50), initial_credits:
Some(50) }` is never the argument of `L2capChannel::create`: the call
passes `&Default::default()`, so whatever the stack's default
configuration is, the channel uses exactly that default, and none of the
three locally chosen values takes effect through this call. -/
theorem c8_config_unused :
    centralCreateCall.2 = .defaulted ∧
      (∀ c : L2capChannelConfig, centralCreateCall.2 ≠ .explicitly c) ∧
      (∀ dflt : L2capChannelConfig,
        effectiveConfig dflt centralCreateCall.2 = dflt) := by
  refine ⟨rfl, fun c => ?_, fun dflt => rfl⟩
  intro h
  exact ConfigArgument.noConfusion h

/-- Witness for C8: even the default config the stack might pick equal to
the local one is simply passed through; the locally built config itself is
what the channel would use only if the stack's default happened to be it. -/
theorem c8_config_unused_witness :
    effectiveConfig centralLocalConfig centralCreateCall.2 =
      centralLocalConfig :=
  c8_config_unused.2.2 centralLocalConfig

/-- Bytes are u8: the central example's `[i + 0x41; 494]` stores the byte
value `(i + 0x41) mod 256`. -/
def centralTx (i : Nat) : List Nat := List.replicate 494 ((i + 0x41) % 256)

/-- The SDU the central example's assertion on line 137 requires the i-th
received payload to equal: `[i; 494]`. -/
def centralAssertedRx (i : Nat) : List Nat := List.replicate 494 (i % 256)

/-- The SDU the peripheral example sends back on its i-th echo iteration
(ble_l2cap_peripheral.rs lines 78-81): `[i; 27]`, byte-identical to the
payload its own receive assertion on line 73 required. -/
def peripheralTx (i : Nat) : List Nat := List.replicate 27 (i % 256)

/-- The SDU the peripheral example's assertion on line 73 requires its
i-th received payload to equal. -/
def peripheralAssertedRx (i : Nat) : List Nat := List.replicate 27 (i % 256)

theorem replicate_ne_of_ne (n : Nat) (a b : Nat) (hab : a ≠ b) :
    List.replicate (n + 1) a ≠ List.replicate (n + 1) b := by
  intro h
  rw [List.replicate_succ, List.replicate_succ] at h
  exact hab (List.cons.injEq _ _ _ _ ▸ h).1

/-- Claim C9: in the central example's echo loop, for every i in 0..10
the submitted SDU has every byte equal to (i + 0x41) and the SDU the
receive assertion requires has every byte equal to i, so the sent and
asserted payloads differ for every i; a peer that echoes received data
byte-identically (as the peripheral example does, re-sending exactly the
payload its own assertion accepted) therefore cannot satisfy the central
assertion. -/
theorem c9_echo_mismatch (i : Nat) (hi : i < 10) :
    centralTx i ≠ centralAssertedRx i ∧
      (∀ b ∈ centralTx i, b = (i + 0x41) % 256) ∧
      (∀ b ∈ centralAssertedRx i, b = i % 256) ∧
      peripheralTx i = peripheralAssertedRx i := by
  refine ⟨?_, fun b hb => List.eq_of_mem_replicate hb,
    fun b hb => List.eq_of_mem_replicate hb, rfl⟩
  unfold centralTx centralAssertedRx
  have h1 : (i + 0x41) % 256 = i + 0x41 := Nat.mod_eq_of_lt (by omega)
  have h2 : i % 256 = i := Nat.mod_eq_of_lt (by omega)
  rw [h1, h2]
  exact replicate_ne_of_ne 493 _ _ (by omega)

/-- Witness for C9: at i = 3 the sent SDU differs from the SDU the
central example's assertion requires. -/
theorem c9_echo_mismatch_witness : centralTx 3 ≠ centralAssertedRx 3 :=
  (c9_echo_mismatch 3 (by omega)).1

/-! ## The NUS peripheral example: advertised-name truncation

Embedded from `examples/apps/src/ble_nus_peripheral.rs`, `advertise`
(lines 141-147): a name longer than 22 bytes is truncated with the string
slice `&name[..22]` before being encoded as the CompleteLocalName. A Rust
`str` is UTF-8 and slicing at a byte offset that is not a character
boundary panics; `is_char_boundary(i)` holds when the byte at offset `i`
is not a UTF-8 continuation byte (or `i` is 0 or the length). A name is
modelled as its UTF-8 byte list; `none` models the panic. -/

/-- Whether a byte is a UTF-8 continuation byte (0x80..0xBF). -/
def utf8ContinuationByte (b : Nat) : Bool := 0x80 ≤ b && b < 0xC0

/-- Rust's `str::is_char_boundary` on the byte list of a string. -/
def isCharBoundary (bytes : List Nat) (i : Nat) : Bool :=
  if i = 0 then true
  else
    match bytes.get? i with
    | some b => !utf8ContinuationByte b
    | none => i = bytes.length

/-- Embedded from `advertise`: `if name.len() > 22 { &name[..22] } else
{ name }`. The slice `&name[..22]` yields the first 22 bytes when byte
offset 22 is a character boundary and panics (`none`) otherwise. -/
def truncateName (name : List Nat) : Option (List Nat) :=
  if 22 < name.length then
    if isCharBoundary name 22 then some (name.take 22) else none
  else some name

/-- A valid 23-byte UTF-8 name (21 times 'a' then the 2-byte character
U+00E9) whose byte offset 22 falls inside the final character. -/
def splitCharName : List Nat := List.replicate 21 0x61 ++ [0xC3, 0xA9]

/-- Claim C10: in the NUS peripheral example's advertise function, a name
of more than 22 bytes is reduced to exactly its first 22 bytes (used as
the CompleteLocalName) precisely when byte offset 22 is a UTF-8 character
boundary; when offset 22 is not a character boundary the slice
`&name[..22]` panics, so advertise is total only for names whose first 22
bytes end on a character boundary — a name at most 22 bytes long passes
through unchanged, and the valid 23-byte name `splitCharName` ending in a
two-byte character is a concrete panic case. -/
theorem c10_name_truncation (name : List Nat) (hlong : 22 < name.length) :
    (isCharBoundary name 22 = true →
      truncateName name = some (name.take 22)) ∧
      (isCharBoundary name 22 = false → truncateName name = none) ∧
      (∀ short : List Nat, short.length ≤ 22 →
        truncateName short = some short) ∧
      truncateName splitCharName = none := by
  refine ⟨fun hb => ?_, fun hb => ?_, fun short hshort => ?_, by decide⟩
  · rw [truncateName, if_pos hlong, if_pos hb]
  · rw [truncateName, if_pos hlong, hb]
    simp
  · rw [truncateName, if_neg (by omega)]

/-- Witness for C10: a 23-byte all-ASCII name is truncated to its first
22 bytes, and the 23-byte name ending in a 2-byte UTF-8 character
panics. -/
theorem c10_name_truncation_witness :
    truncateName (List.replicate 23 0x61) =
        some ((List.replicate 23 0x61).take 22) ∧
      truncateName splitCharName = none :=
  ⟨(c10_name_truncation (List.replicate 23 0x61) (by simp)).1 (by decide),
   (c10_name_truncation (List.replicate 23 0x61) (by simp)).2.2.2⟩

end Trouble
